import Mathlib

/-!
Verification of the SQL-to-Knex transliterator `sql_to_knex_coffeescript`
from `src/agent.py` (lines 62-106).

Strings are modelled as `List Char`.  The Python `str` methods used by the
source are modelled on their ASCII behaviour (the source only ever feeds
them ASCII SQL text): `strip` removes the six ASCII whitespace characters,
`lower` maps the letters A-Z, `isdigit` recognises 0-9.  Python exceptions
are modelled with `Except`, the carried string being the exception
description that CPython would render (the `IndexError` of `split("from")[1]`
and the `ValueError` of the 3-element unpack are the only reachable raises).
Where the source repeats a computation (`sql_query.split("from")` appears on
two consecutive lines) the model names it once; all splits are the same
first-occurrence, non-overlapping splits that Python performs.
-/

namespace CoderAgent

/-- The six ASCII characters removed by Python `str.strip()`. -/
def isSpace (c : Char) : Bool :=
  c = ' ' || c = '\t' || c = '\n' || c = '\r' || c = '\x0b' || c = '\x0c'

/-- Python `str.strip()` (ASCII whitespace). -/
def strip (s : List Char) : List Char :=
  ((s.dropWhile isSpace).reverse.dropWhile isSpace).reverse

/-- Python `str.lower()` on one ASCII character. -/
def toLowerChar (c : Char) : Char :=
  if 65 ≤ c.toNat ∧ c.toNat ≤ 90 then Char.ofNat (c.toNat + 32) else c

/-- Python `str.lower()` (ASCII letters). -/
def lower (s : List Char) : List Char := s.map toLowerChar

/-- Python `str.startswith` : `isPre p s` holds when `p` is a leading block of `s`. -/
def isPre : List Char → List Char → Bool
  | [], _ => true
  | _ :: _, [] => false
  | p :: ps, c :: cs => p = c && isPre ps cs

/-- Python `str.endswith`. -/
def isSuf (p s : List Char) : Bool := isPre p.reverse s.reverse

/-- Python `pat in s` substring test. -/
def containsSub (pat : List Char) : List Char → Bool
  | [] => isPre pat []
  | c :: s => isPre pat (c :: s) || containsSub pat s

/-- Python `str.split(sep)`: split at each non-overlapping occurrence of
`sep`, scanning left to right.  The fuel argument bounds the recursion; with
`fuel = s.length` (see `splitOnSub`) the fallback first branch is never the
one that produces the result for a nonempty separator. -/
def splitOnSubFuel (sep : List Char) : Nat → List Char → List Char → List (List Char)
  | 0, acc, s => [acc.reverse ++ s]
  | _ + 1, acc, [] => [acc.reverse]
  | fuel + 1, acc, c :: s =>
    if isPre sep (c :: s) then
      acc.reverse :: splitOnSubFuel sep fuel [] (s.drop (sep.length - 1))
    else
      splitOnSubFuel sep fuel (c :: acc) s

/-- Python `str.split(sep)`. -/
def splitOnSub (sep s : List Char) : List (List Char) :=
  splitOnSubFuel sep s.length [] s

/-- Python `str.replace(pat, repl)` (all non-overlapping occurrences). -/
def pyReplaceFuel (pat repl : List Char) : Nat → List Char → List Char
  | 0, s => s
  | _ + 1, [] => []
  | fuel + 1, c :: s =>
    if isPre pat (c :: s) then
      repl ++ pyReplaceFuel pat repl fuel (s.drop (pat.length - 1))
    else
      c :: pyReplaceFuel pat repl fuel s

/-- Python `str.replace(pat, repl)`. -/
def pyReplace (pat repl s : List Char) : List Char :=
  pyReplaceFuel pat repl s.length s

/-- Python no-argument `str.split()`: split on whitespace runs, no empty tokens. -/
def pySplitWsAux (acc : List Char) : List Char → List (List Char)
  | [] => if acc.isEmpty then [] else [acc.reverse]
  | c :: s =>
    if isSpace c then
      if acc.isEmpty then pySplitWsAux [] s else acc.reverse :: pySplitWsAux [] s
    else
      pySplitWsAux (c :: acc) s

/-- Python no-argument `str.split()`. -/
def pySplitWs (s : List Char) : List (List Char) := pySplitWsAux [] s

/-- ASCII digit test, one character. -/
def isDigitChar (c : Char) : Bool := 48 ≤ c.toNat && c.toNat ≤ 57

/-- Python `str.isdigit()` (ASCII): nonempty and all digits. -/
def pyIsDigit (s : List Char) : Bool := !s.isEmpty && s.all isDigitChar

/-- The single-quote character. -/
def q1 : Char := '\''

/-- Wrap a string in single quotes, as the f-string at agent.py:95 does. -/
def quoted (s : List Char) : List Char := q1 :: (s ++ [q1])

/-- Value formatting, agent.py lines 90-95. -/
def formatValue (value : List Char) : List Char :=
  if pyIsDigit value then value
  else if isPre [q1] value && isSuf [q1] value then value
  else quoted value

def kwWhere : List Char := "where".data

def kwAndWhere : List Char := "andWhere".data

def kwOrWhere : List Char := "orWhere".data

/-- CPython message of the IndexError raised by `split("from")[1]` (agent.py:75). -/
def errIndexMsg : List Char := "list index out of range".data

/-- CPython message of the ValueError raised by the 3-element unpack at
agent.py:88 when the slice has `got` elements. -/
def errUnpackMsg (got : Nat) : List Char :=
  ("not enough values to unpack (expected 3, got ".data) ++ (Nat.repr got).data ++ (")".data)

/-- The conjunction update of agent.py lines 83-87: at a stride with `i > 0`
the operator is switched by the token `conditions[i-1]` (here `prev`, `none`
meaning `i = 0`); a token that is neither `and` nor `or` leaves the current
operator unchanged. -/
def updateOperator (prev : Option (List Char)) (cur : List Char) : List Char :=
  match prev with
  | none => cur
  | some t =>
    if lower t = "and".data then kwAndWhere
    else if lower t = "or".data then kwOrWhere
    else cur

/-- One condition line, the f-string at agent.py:97 (the literal segments
are a space and two comma-space separators). -/
def mkLine (cur column oper fv : List Char) : List Char :=
  '.' :: (cur ++ [' '] ++ quoted column ++ [',', ' '] ++ quoted oper ++ [',', ' '] ++ fv)

/-- The WHERE loop of agent.py lines 82-97.  The Python loop walks
`i = 0, 4, 8, ...` over `conditions`; here the suffix `conditions.drop i` is
the first argument and `prev` is `conditions[i-1]` (`none` at `i = 0`).
A remaining suffix of length 1 or 2 reproduces the unpack ValueError of
line 88; an empty suffix means `i ≥ len(conditions)` and the loop ends. -/
def whereLoopGo : List (List Char) → Option (List Char) → List Char →
    Except (List Char) (List (List Char))
  | [], _, _ => Except.ok []
  | [_], _, _ => Except.error (errUnpackMsg 1)
  | [_, _], _, _ => Except.error (errUnpackMsg 2)
  | column :: oper :: value :: rest, prev, cur =>
    let cur' := updateOperator prev cur
    let line := mkLine cur' column oper (formatValue value)
    match rest with
    | [] => Except.ok [line]
    | conj :: rest' =>
      match whereLoopGo rest' (some conj) cur' with
      | Except.error e => Except.error e
      | Except.ok ls => Except.ok (line :: ls)

/-- agent.py:72 — `sql_query = sql_query.strip().lower()`. -/
def normalize (s : List Char) : List Char := lower (strip s)

/-- agent.py:74-75 — `sql_query.split("from")`. -/
def fromParts (q : List Char) : List (List Char) := splitOnSub ("from".data) q

/-- agent.py:74 — `sql_query.split("from")[0].replace("select", "").strip()`.
(The `[0]` of a Python split always exists; `getD` is exact here.) -/
def selectPartOf (q : List Char) : List Char :=
  strip (pyReplace ("select".data) [] ((fromParts q).getD 0 []))

/-- agent.py:75 — `sql_query.split("from")[1].strip().split(" ")[0]`, meaningful
when `fromParts q` has a second element (otherwise Python raises IndexError,
handled in `transformBody`). -/
def tablePartOf (q : List Char) : List Char :=
  (splitOnSub [' '] (strip ((fromParts q).getD 1 []))).getD 0 []

/-- agent.py:79 — `sql_query.split("where")[1].strip()`; the `[1]` exists
whenever `"where" in sql_query`, the only case in which this is used. -/
def wherePartOf (q : List Char) : List Char :=
  strip ((splitOnSub ("where".data) q).getD 1 [])

/-- agent.py:80 — `conditions = where_part.split()`. -/
def conditionsOf (q : List Char) : List (List Char) := pySplitWs (wherePartOf q)

/-- agent.py:77-97 — the `where_clause` list: empty when `"where"` does not
occur in the query, otherwise the lines produced by the loop. -/
def whereClauseRes (q : List Char) : Except (List Char) (List (List Char)) :=
  if containsSub ("where".data) q then whereLoopGo (conditionsOf q) none kwWhere
  else Except.ok []

def fallbackMsg : List Char := "Only basic SELECT queries are supported in this example.".data

def errIntro : List Char := "An error occurred while transforming SQL to Knex.js: ".data

/-- agent.py:99-103 — string assembly of the returned query text. -/
def renderOutput (table_part select_part : List Char) (where_clause : List (List Char)) :
    List Char :=
  ("knex ".data) ++ quoted table_part ++ ("\n.select ".data) ++ quoted select_part ++
    (where_clause.foldr (fun cl acc => ('\n' :: cl) ++ acc) []) ++ ("\n".data)

/-- The body of the `try` block, agent.py lines 72-104.  `Except.error`
carries the description of the Python exception that the corresponding run
would raise.  (Python computes `select_part` before the IndexError of line 75
can fire, but that computation is pure, so the order is unobservable.) -/
def transformBody (input : List Char) : Except (List Char) (List Char) :=
  let q := normalize input
  if isPre ("select".data) q then
    if 1 < (fromParts q).length then
      match whereClauseRes q with
      | Except.error e => Except.error e
      | Except.ok where_clause =>
        Except.ok (renderOutput (tablePartOf q) (selectPartOf q) where_clause)
    else Except.error errIndexMsg
  else Except.ok fallbackMsg

/-- agent.py lines 62-106: the full function, `except` clause included. -/
def sql_to_knex_coffeescript (s : String) : String :=
  match transformBody s.data with
  | Except.ok r => String.mk r
  | Except.error e => String.mk (errIntro ++ e)

/-- The lines of an output string (split at newline characters). -/
def linesOf (s : String) : List (List Char) := splitOnSub ['\n'] s.data

/-- The operator keyword of a condition line: the segment between the leading
dot and the first space. -/
def kwOfLine (l : List Char) : List Char :=
  (l.drop 1).takeWhile (fun c => !(c = ' '))

/-- Modelled from the spec wording of the conjunction rule (the rule under
test): the keyword of the condition at stride start `i` is decided by token
`i - 1` alone, with the default `where` reused when that token is neither
`and` nor `or`. -/
def claimKeywordC4 (conds : List (List Char)) (i : Nat) : List Char :=
  if i = 0 then kwWhere
  else if lower (conds.getD (i - 1) []) = "and".data then kwAndWhere
  else if lower (conds.getD (i - 1) []) = "or".data then kwOrWhere
  else kwWhere

/-- A query whose third WHERE stride is preceded by a token (`xx`) that is
neither `and` nor `or`, while an earlier stride switched to `andWhere`. -/
def cexC4input : String := "select a from t where a = 1 and b = 2 xx c = 3"

def cexConds : List (List Char) := conditionsOf (normalize cexC4input.data)

def cexLines : List (List Char) :=
  [mkLine kwWhere ("a".data) ("=".data) ("1".data),
   mkLine kwAndWhere ("b".data) ("=".data) ("2".data),
   mkLine kwAndWhere ("c".data) ("=".data) ("3".data)]

/-- ASCII uppercase test. -/
def isUpperA (c : Char) : Bool := 65 ≤ c.toNat && c.toNat ≤ 90

end CoderAgent

namespace CoderAgent

/-- C1: for every input string the transform returns a string, never a raised
exception: whenever the body raises (modelled by `Except.error`) the result is
the fixed message followed by the exception description; in particular a WHERE
clause with a lone trailing token yields the unpack message and a statement
with no `from` yields the index message. -/
theorem sql_to_knex_total_error_format :
    (∀ s : String,
      (∃ e, transformBody s.data = Except.error e ∧
            sql_to_knex_coffeescript s = String.mk (errIntro ++ e)) ∨
      (∃ r, transformBody s.data = Except.ok r ∧
            sql_to_knex_coffeescript s = String.mk r)) ∧
    sql_to_knex_coffeescript "select a from t where b" =
      "An error occurred while transforming SQL to Knex.js: not enough values to unpack (expected 3, got 1)" ∧
    sql_to_knex_coffeescript "select a" =
      "An error occurred while transforming SQL to Knex.js: list index out of range" := by
  refine ⟨fun s => ?_, by decide, by decide⟩
  cases h : transformBody s.data with
  | ok r => exact Or.inr ⟨r, rfl, by simp [sql_to_knex_coffeescript, h]⟩
  | error e => exact Or.inl ⟨e, rfl, by simp [sql_to_knex_coffeescript, h]⟩

/-- C2: every input whose trimmed lower-cased form does not start with
`select` gets exactly the fixed unsupported-query message. -/
theorem non_select_fixed_message (s : String)
    (h : isPre ("select".data) (normalize s.data) = false) :
    sql_to_knex_coffeescript s =
      "Only basic SELECT queries are supported in this example." := by
  simp only [sql_to_knex_coffeescript, transformBody, h, Bool.false_eq_true, if_false]
  rfl

/-- C2 witness: `delete from t;` does not start with `select` and gets the
fixed message. -/
theorem non_select_fixed_message_witness :
    isPre ("select".data) (normalize ("delete from t;".data)) = false ∧
    sql_to_knex_coffeescript "delete from t;" =
      "Only basic SELECT queries are supported in this example." :=
  ⟨by decide, non_select_fixed_message "delete from t;" (by decide)⟩

/-- C5 counterexample: on `select * from users;` the output is not the
claimed `knex 'users'` text — the trailing semicolon stays in the table
token. -/
theorem example_star_users_counterexample :
    sql_to_knex_coffeescript "select * from users;" ≠
      String.mk (renderOutput ("users".data) ("*".data) []) := by decide

/-- C5 amended: on `select * from users;` the output is the two-line text
with table token `users;` (semicolon kept), column token `*`, and a trailing
newline. -/
theorem example_star_users_output :
    sql_to_knex_coffeescript "select * from users;" =
      String.mk (renderOutput ("users;".data) ("*".data) []) := by decide

/-- C6 counterexample: on `select id, name from users where age > 18;` the
output is not the claimed text with unquoted value `18` — the token is
`18;`, which is not numeric. -/
theorem example_where_numeric_counterexample :
    sql_to_knex_coffeescript "select id, name from users where age > 18;" ≠
      String.mk (renderOutput ("users".data) ("id, name".data)
        [mkLine kwWhere ("age".data) (">".data) ("18".data)]) := by decide

/-- C6 amended: on `select id, name from users where age > 18;` the output is
the three-line text whose condition value is the quoted token `'18;'` (the
semicolon makes the token non-numeric, so it is wrapped in quotes). -/
theorem example_where_numeric_output :
    sql_to_knex_coffeescript "select id, name from users where age > 18;" =
      String.mk (renderOutput ("users".data) ("id, name".data)
        [mkLine kwWhere ("age".data) (">".data) (quoted ("18;".data))]) := by decide

/-- C7 counterexample: on
`select id from users where age > 18 and status = active;` the fourth output
line is not the claimed `.andWhere 'status', '=', 'active'` — the quoted
value keeps the trailing semicolon. -/
theorem example_andwhere_counterexample :
    (linesOf (sql_to_knex_coffeescript
        "select id from users where age > 18 and status = active;")).getD 3 [] ≠
      mkLine kwAndWhere ("status".data) ("=".data) (quoted ("active".data)) := by decide

/-- C7 amended: on `select id from users where age > 18 and status = active;`
the third output line is `.where 'age', '>', 18` and the fourth is
`.andWhere 'status', '=', 'active;'` (and-where keyword, quoted value with
the semicolon kept). -/
theorem example_andwhere_lines :
    (linesOf (sql_to_knex_coffeescript
        "select id from users where age > 18 and status = active;")).getD 2 [] =
      mkLine kwWhere ("age".data) (">".data) ("18".data) ∧
    (linesOf (sql_to_knex_coffeescript
        "select id from users where age > 18 and status = active;")).getD 3 [] =
      mkLine kwAndWhere ("status".data) ("=".data) (quoted ("active;".data)) := by
  exact ⟨by decide, by decide⟩

/-- C8: the transform is a pure function of its input: any two invocations on
equal input strings return equal outputs (the model threads no state and the
source mutates none). -/
theorem deterministic_same_input (s₁ s₂ : String) (h : s₁ = s₂) :
    sql_to_knex_coffeescript s₁ = sql_to_knex_coffeescript s₂ := by rw [h]

/-- C8 witness: two invocations on `select * from users;` agree. -/
theorem deterministic_same_input_witness :
    ("select * from users;" : String) = "select * from users;" ∧
    sql_to_knex_coffeescript "select * from users;" =
      sql_to_knex_coffeescript "select * from users;" :=
  ⟨rfl, deterministic_same_input "select * from users;" "select * from users;" rfl⟩

/-- Every token produced by the whitespace tokenizer is nonempty. -/
theorem pySplitWsAux_ne_nil (s : List Char) :
    ∀ acc t, t ∈ pySplitWsAux acc s → t ≠ [] := by
  induction s with
  | nil =>
    intro acc t ht
    cases acc with
    | nil => simp [pySplitWsAux] at ht
    | cons a as =>
      simp [pySplitWsAux] at ht
      simp [ht]
  | cons c cs ih =>
    intro acc t ht
    simp only [pySplitWsAux] at ht
    by_cases hc : isSpace c = true
    · rw [if_pos hc] at ht
      by_cases ha : acc.isEmpty = true
      · rw [if_pos ha] at ht
        exact ih [] t ht
      · rw [if_neg ha] at ht
        rcases List.mem_cons.mp ht with h | h
        · cases acc with
          | nil => simp at ha
          | cons a as => simp [h]
        · exact ih [] t h
    · rw [if_neg hc] at ht
      exact ih (c :: acc) t ht

/-- C3: every value token processed in the WHERE loop — i.e. every token of
the tokenized WHERE part — is formatted by the three-branch rule of
agent.py:90-95: all-digits tokens pass through unquoted, tokens that both
start and end with a single quote pass through unchanged, every other token
is wrapped in single quotes (no escaping). -/
theorem value_token_formatting (q v : List Char) (hv : v ∈ conditionsOf q) :
    (v.all isDigitChar = true → formatValue v = v) ∧
    (v.all isDigitChar = false → (isPre [q1] v && isSuf [q1] v) = true →
      formatValue v = v) ∧
    (v.all isDigitChar = false → (isPre [q1] v && isSuf [q1] v) = false →
      formatValue v = quoted v) := by
  have hne : v ≠ [] := pySplitWsAux_ne_nil (wherePartOf q) [] v hv
  have hdig : pyIsDigit v = v.all isDigitChar := by
    unfold pyIsDigit
    cases v with
    | nil => exact absurd rfl hne
    | cons a as => simp [List.isEmpty]
  refine ⟨fun h1 => ?_, fun h1 h2 => ?_, fun h1 h2 => ?_⟩
  · unfold formatValue
    rw [hdig, h1, if_pos rfl]
  · unfold formatValue
    rw [hdig, h1]
    simp [h2]
  · unfold formatValue
    rw [hdig, h1]
    simp [h2]

/-- C3 witness: the token `1` of the WHERE part of `where a = 1` is all
digits and is emitted unchanged. -/
theorem value_token_formatting_witness :
    (("1".data) ∈ conditionsOf ("where a = 1".data)) ∧
    (("1".data).all isDigitChar = true) ∧
    formatValue ("1".data) = "1".data :=
  ⟨by decide, by decide,
   (value_token_formatting ("where a = 1".data) ("1".data) (by decide)).1 (by decide)⟩

/-- Helper for C9: characters surviving `strip` come from the input. -/
theorem mem_strip {c : Char} {s : List Char} (h : c ∈ strip s) : c ∈ s := by
  unfold strip at h
  rw [List.mem_reverse] at h
  have h1 := (List.dropWhile_sublist isSpace).mem h
  rw [List.mem_reverse] at h1
  exact (List.dropWhile_sublist isSpace).mem h1

/-- Helper for C9: characters of any chunk of a separator split come from the
accumulator or the input. -/
theorem mem_splitOnSubFuel (sep : List Char) :
    ∀ (fuel : Nat) (acc s t : List Char), t ∈ splitOnSubFuel sep fuel acc s →
      ∀ {c}, c ∈ t → c ∈ acc ∨ c ∈ s := by
  intro fuel
  induction fuel with
  | zero =>
    intro acc s t ht c hc
    simp only [splitOnSubFuel, List.mem_singleton] at ht
    subst ht
    rcases List.mem_append.mp hc with h | h
    · exact Or.inl (List.mem_reverse.mp h)
    · exact Or.inr h
  | succ n ih =>
    intro acc s t ht c hc
    cases s with
    | nil =>
      simp only [splitOnSubFuel, List.mem_singleton] at ht
      subst ht
      exact Or.inl (List.mem_reverse.mp hc)
    | cons a as =>
      simp only [splitOnSubFuel] at ht
      by_cases hp : isPre sep (a :: as) = true
      · rw [if_pos hp] at ht
        rcases List.mem_cons.mp ht with h | h
        · subst h
          exact Or.inl (List.mem_reverse.mp hc)
        · rcases ih [] (as.drop (sep.length - 1)) t h hc with h1 | h1
          · exact absurd h1 (List.not_mem_nil c)
          · exact Or.inr (List.mem_cons_of_mem a (List.drop_subset _ _ h1))
      · rw [if_neg hp] at ht
        rcases ih (a :: acc) as t ht hc with h1 | h1
        · rcases List.mem_cons.mp h1 with h2 | h2
          · subst h2
            exact Or.inr (List.mem_cons_self c as)
          · exact Or.inl h2
        · exact Or.inr (List.mem_cons_of_mem a h1)

/-- Helper for C9: characters of a replacement result come from the
replacement text or the input. -/
theorem mem_pyReplaceFuel (pat repl : List Char) :
    ∀ (fuel : Nat) (s : List Char) {c}, c ∈ pyReplaceFuel pat repl fuel s →
      c ∈ repl ∨ c ∈ s := by
  intro fuel
  induction fuel with
  | zero =>
    intro s c hc
    exact Or.inr hc
  | succ n ih =>
    intro s c hc
    cases s with
    | nil => simp only [pyReplaceFuel] at hc; exact absurd hc (List.not_mem_nil c)
    | cons a as =>
      simp only [pyReplaceFuel] at hc
      by_cases hp : isPre pat (a :: as) = true
      · rw [if_pos hp] at hc
        rcases List.mem_append.mp hc with h | h
        · exact Or.inl h
        · rcases ih (as.drop (pat.length - 1)) h with h1 | h1
          · exact Or.inl h1
          · exact Or.inr (List.mem_cons_of_mem a (List.drop_subset _ _ h1))
      · rw [if_neg hp] at hc
        rcases List.mem_cons.mp hc with h | h
        · subst h
          exact Or.inr (List.mem_cons_self c as)
        · rcases ih as h with h1 | h1
          · exact Or.inl h1
          · exact Or.inr (List.mem_cons_of_mem a h1)

/-- Helper for C9: characters of whitespace-split tokens come from the
accumulator or the input. -/
theorem mem_pySplitWsAux (s : List Char) :
    ∀ (acc t : List Char), t ∈ pySplitWsAux acc s →
      ∀ {c}, c ∈ t → c ∈ acc ∨ c ∈ s := by
  induction s with
  | nil =>
    intro acc t ht c hc
    cases acc with
    | nil => simp [pySplitWsAux] at ht
    | cons a as =>
      simp [pySplitWsAux] at ht
      subst ht
      have h2 : c ∈ (a :: as).reverse := by simpa using hc
      exact Or.inl (List.mem_reverse.mp h2)
  | cons b bs ih =>
    intro acc t ht c hc
    simp only [pySplitWsAux] at ht
    by_cases hb : isSpace b = true
    · rw [if_pos hb] at ht
      by_cases ha : acc.isEmpty = true
      · rw [if_pos ha] at ht
        rcases ih [] t ht hc with h | h
        · exact absurd h (List.not_mem_nil c)
        · exact Or.inr (List.mem_cons_of_mem b h)
      · rw [if_neg ha] at ht
        rcases List.mem_cons.mp ht with h | h
        · subst h
          exact Or.inl (List.mem_reverse.mp hc)
        · rcases ih [] t h hc with h1 | h1
          · exact absurd h1 (List.not_mem_nil c)
          · exact Or.inr (List.mem_cons_of_mem b h1)
    · rw [if_neg hb] at ht
      rcases ih (b :: acc) t ht hc with h | h
      · rcases List.mem_cons.mp h with h1 | h1
        · subst h1
          exact Or.inr (List.mem_cons_self c bs)
        · exact Or.inl h1
      · exact Or.inr (List.mem_cons_of_mem b h)

/-- Helper for C9: a character of `l.getD i []` lies in some member of `l`. -/
theorem mem_getD_of_mem {c : Char} :
    ∀ (l : List (List Char)) (i : Nat), c ∈ l.getD i [] → ∃ t ∈ l, c ∈ t := by
  intro l
  induction l with
  | nil =>
    intro i hc
    rw [List.getD_nil] at hc
    exact absurd hc (List.not_mem_nil c)
  | cons a as ih =>
    intro i hc
    cases i with
    | zero =>
      rw [List.getD_cons_zero] at hc
      exact ⟨a, List.mem_cons_self a as, hc⟩
    | succ j =>
      rw [List.getD_cons_succ] at hc
      obtain ⟨t, ht, hct⟩ := ih j hc
      exact ⟨t, List.mem_cons_of_mem a ht, hct⟩

/-- Helper for C9: shifting an uppercase code point by 32 leaves the
uppercase range. -/
theorem isUpperA_ofNat_shift (n : Nat) (h1 : 65 ≤ n) (h2 : n ≤ 90) :
    isUpperA (Char.ofNat (n + 32)) = false := by
  interval_cases n <;> decide

/-- Helper for C9: lowercasing a character never yields ASCII uppercase. -/
theorem isUpperA_toLowerChar (c : Char) : isUpperA (toLowerChar c) = false := by
  unfold toLowerChar
  by_cases h : 65 ≤ c.toNat ∧ c.toNat ≤ 90
  · rw [if_pos h]
    exact isUpperA_ofNat_shift c.toNat h.1 h.2
  · rw [if_neg h]
    simp only [isUpperA, Bool.and_eq_false_iff, decide_eq_false_iff_not]
    omega

/-- Helper for C9: no character of a lowered string is ASCII uppercase. -/
theorem mem_lower_not_upper {c : Char} {s : List Char} (h : c ∈ lower s) :
    isUpperA c = false := by
  unfold lower at h
  rcases List.mem_map.mp h with ⟨a, _, rfl⟩
  exact isUpperA_toLowerChar a

/-- C9: the query is lower-cased (after stripping) before any processing, so
all output pieces derived from the input — the table token, the column list
and every WHERE token (columns, comparison operators, values) — contain no
ASCII uppercase character, whatever the casing of the input. -/
theorem derived_pieces_lowercased (s : String) :
    (∀ c ∈ tablePartOf (normalize s.data), isUpperA c = false) ∧
    (∀ c ∈ selectPartOf (normalize s.data), isUpperA c = false) ∧
    (∀ t ∈ conditionsOf (normalize s.data), ∀ c ∈ t, isUpperA c = false) := by
  have hq : ∀ {c : Char}, c ∈ normalize s.data → isUpperA c = false := by
    intro c hc
    exact mem_lower_not_upper hc
  refine ⟨?_, ?_, ?_⟩
  · intro c hc
    obtain ⟨t, ht, hct⟩ := mem_getD_of_mem _ _ hc
    have h1 : c ∈ strip ((fromParts (normalize s.data)).getD 1 []) := by
      rcases mem_splitOnSubFuel [' '] _ _ _ _ ht hct with h | h
      · exact absurd h (List.not_mem_nil c)
      · exact h
    obtain ⟨u, hu, hcu⟩ := mem_getD_of_mem _ _ (mem_strip h1)
    rcases mem_splitOnSubFuel ("from".data) _ _ _ _ hu hcu with h | h
    · exact absurd h (List.not_mem_nil c)
    · exact hq h
  · intro c hc
    rcases mem_pyReplaceFuel ("select".data) [] _ _ (mem_strip hc) with h | h
    · exact absurd h (List.not_mem_nil c)
    · obtain ⟨u, hu, hcu⟩ := mem_getD_of_mem _ _ h
      rcases mem_splitOnSubFuel ("from".data) _ _ _ _ hu hcu with h1 | h1
      · exact absurd h1 (List.not_mem_nil c)
      · exact hq h1
  · intro t ht c hc
    rcases mem_pySplitWsAux _ _ _ ht hc with h | h
    · exact absurd h (List.not_mem_nil c)
    · obtain ⟨u, hu, hcu⟩ := mem_getD_of_mem _ _ (mem_strip h)
      rcases mem_splitOnSubFuel ("where".data) _ _ _ _ hu hcu with h1 | h1
      · exact absurd h1 (List.not_mem_nil c)
      · exact hq h1

/-- C9 witness: for the upper-cased input `SELECT Name FROM Users;` the table
token contains the character `u`, which is not uppercase. -/
theorem derived_pieces_lowercased_witness :
    ('u' ∈ tablePartOf (normalize ("SELECT Name FROM Users;".data))) ∧
    isUpperA 'u' = false :=
  ⟨by decide, (derived_pieces_lowercased "SELECT Name FROM Users;").1 'u' (by decide)⟩

/-- Helper for C10: a separator split always produces at least one chunk. -/
theorem splitOnSubFuel_length_pos (sep : List Char) :
    ∀ (fuel : Nat) (acc s : List Char), 0 < (splitOnSubFuel sep fuel acc s).length := by
  intro fuel
  induction fuel with
  | zero =>
    intro acc s
    simp [splitOnSubFuel]
  | succ n ih =>
    intro acc s
    cases s with
    | nil => simp [splitOnSubFuel]
    | cons a as =>
      simp only [splitOnSubFuel]
      by_cases hp : isPre sep (a :: as) = true
      · rw [if_pos hp]
        simp
      · rw [if_neg hp]
        exact ih (a :: acc) as

/-- Helper for C10: when the separator occurs in the input, the split has at
least two chunks (so Python's `[1]` indexing cannot raise). -/
theorem contains_split_two (sep : List Char) (hsep : sep ≠ []) :
    ∀ (fuel : Nat) (acc s : List Char), containsSub sep s = true → s.length ≤ fuel →
      1 < (splitOnSubFuel sep fuel acc s).length := by
  intro fuel
  induction fuel with
  | zero =>
    intro acc s hc hl
    have hs : s = [] := List.length_eq_zero.mp (Nat.le_zero.mp hl)
    subst hs
    cases sep with
    | nil => exact absurd rfl hsep
    | cons p ps => simp [containsSub, isPre] at hc
  | succ n ih =>
    intro acc s hc hl
    cases s with
    | nil =>
      cases sep with
      | nil => exact absurd rfl hsep
      | cons p ps => simp [containsSub, isPre] at hc
    | cons a as =>
      simp only [splitOnSubFuel]
      by_cases hp : isPre sep (a :: as) = true
      · rw [if_pos hp]
        have := splitOnSubFuel_length_pos sep n [] (as.drop (sep.length - 1))
        simp only [List.length_cons]
        omega
      · rw [if_neg hp]
        apply ih (a :: acc) as
        · simp only [containsSub, hp, Bool.false_or] at hc
          exact hc
        · exact Nat.le_of_succ_le_succ hl

/-- C10 counterexample: `select a from t where x where` satisfies the claim's
premises — its trimmed lower-cased form starts with `select`, contains
`from`, and ends with `where` with nothing after it — yet the function
returns the unpack-error diagnostic, not the success output: the split is at
the FIRST occurrence of `where`, and the token `x` between the two
occurrences feeds an incomplete stride. -/
theorem where_no_tokens_counterexample :
    isPre ("select".data) (normalize ("select a from t where x where".data)) = true ∧
    containsSub ("from".data) (normalize ("select a from t where x where".data)) = true ∧
    isSuf ("where".data) (normalize ("select a from t where x where".data)) = true ∧
    sql_to_knex_coffeescript "select a from t where x where" =
      String.mk (errIntro ++ errUnpackMsg 1) ∧
    String.mk (errIntro ++ errUnpackMsg 1) ≠
      String.mk (renderOutput
        (tablePartOf (normalize ("select a from t where x where".data)))
        (selectPartOf (normalize ("select a from t where x where".data))) []) :=
  ⟨by decide, by decide, by decide, by decide, by decide⟩

/-- C10 amended: for every input whose trimmed lower-cased form starts with
`select`, contains `from`, contains `where`, and whose text after the FIRST
occurrence of `where` tokenizes to nothing (only whitespace there), the
function returns the success output made of the table-selector and
column-selector lines with zero condition lines. -/
theorem where_no_tokens_success (s : String)
    (h1 : isPre ("select".data) (normalize s.data) = true)
    (h2 : containsSub ("from".data) (normalize s.data) = true)
    (h3 : containsSub ("where".data) (normalize s.data) = true)
    (h4 : conditionsOf (normalize s.data) = []) :
    sql_to_knex_coffeescript s =
      String.mk (renderOutput (tablePartOf (normalize s.data))
        (selectPartOf (normalize s.data)) []) := by
  have hlen : 1 < (fromParts (normalize s.data)).length :=
    contains_split_two ("from".data) (by decide) ((normalize s.data).length) []
      (normalize s.data) h2 (le_refl _)
  have hw : whereClauseRes (normalize s.data) = Except.ok [] := by
    unfold whereClauseRes
    rw [if_pos h3, h4]
    rfl
  simp only [sql_to_knex_coffeescript, transformBody, h1, if_true]
  rw [if_pos hlen, hw]

/-- Helper for C4: a boolean all-check transfers to a membership statement. -/
theorem no_space_of_all (l : List Char) (h : l.all (fun c => !(c = ' ')) = true) :
    ∀ c ∈ l, ¬ c = ' ' := by
  intro c hc
  have h1 := List.all_eq_true.mp h c hc
  simpa using h1

/-- Helper for C4: `takeWhile` of non-space characters stops exactly at the
first space. -/
theorem takeWhile_until_space (a b : List Char) (h : ∀ c ∈ a, ¬ c = ' ') :
    (a ++ ' ' :: b).takeWhile (fun c => !(c = ' ')) = a := by
  induction a with
  | nil => simp [List.takeWhile_cons]
  | cons x xs ih =>
    have hx : ¬ x = ' ' := h x (List.mem_cons_self x xs)
    simp only [List.cons_append, List.takeWhile_cons, hx, decide_False, Bool.not_false,
      if_true, List.cons.injEq, true_and]
    exact ih (fun c hc => h c (List.mem_cons_of_mem x hc))

/-- Helper for C4: the keyword read back from a rendered condition line is the
operator it was rendered with. -/
theorem kwOfLine_mkLine (cur column oper fv : List Char) (h : ∀ c ∈ cur, ¬ c = ' ') :
    kwOfLine (mkLine cur column oper fv) = cur := by
  have h2 := takeWhile_until_space cur
    (quoted column ++ ([',', ' '] ++ (quoted oper ++ ([',', ' '] ++ fv)))) h
  simpa [kwOfLine, mkLine, List.append_assoc] using h2

/-- Helper for C4: the conjunction update only ever produces the three
space-free keywords. -/
theorem updateOperator_no_space (prev : Option (List Char)) (cur : List Char)
    (h : ∀ c ∈ cur, ¬ c = ' ') : ∀ c ∈ updateOperator prev cur, ¬ c = ' ' := by
  cases prev with
  | none => exact h
  | some t =>
    simp only [updateOperator]
    by_cases h1 : lower t = "and".data
    · rw [if_pos h1]
      exact no_space_of_all kwAndWhere (by decide)
    · rw [if_neg h1]
      by_cases h2 : lower t = "or".data
      · rw [if_pos h2]
        exact no_space_of_all kwOrWhere (by decide)
      · rw [if_neg h2]
        exact h

/-- Helper for C4, by induction on a bound of the stride count: on the
success path of the WHERE loop, the first emitted line carries the operator
chosen by `prev`, and each later line carries `and`/`or`-switched operator or
repeats the operator of the line before it. -/
theorem whereLoopGo_kw :
    ∀ (n : Nat) (conds : List (List Char)), conds.length ≤ n →
      ∀ (prev : Option (List Char)) (cur : List Char) (lines : List (List Char)),
        whereLoopGo conds prev cur = Except.ok lines →
        (∀ c ∈ cur, ¬ c = ' ') →
        ((0 < lines.length → kwOfLine (lines.getD 0 []) = updateOperator prev cur) ∧
         (∀ k, k + 1 < lines.length →
            kwOfLine (lines.getD (k + 1) []) =
              (if lower (conds.getD (4 * k + 3) []) = "and".data then kwAndWhere
               else if lower (conds.getD (4 * k + 3) []) = "or".data then kwOrWhere
               else kwOfLine (lines.getD k [])))) := by
  intro n
  induction n with
  | zero =>
    intro conds hn prev cur lines h hcur
    have hc0 : conds = [] := List.length_eq_zero.mp (Nat.le_zero.mp hn)
    subst hc0
    simp only [whereLoopGo] at h
    injection h with h2
    subst h2
    exact ⟨fun h0 => absurd h0 (by simp), fun k hk => absurd hk (by simp)⟩
  | succ n ih =>
    intro conds hn prev cur lines h hcur
    cases conds with
    | nil =>
      simp only [whereLoopGo] at h
      injection h with h2
      subst h2
      exact ⟨fun h0 => absurd h0 (by simp), fun k hk => absurd hk (by simp)⟩
    | cons x rest1 =>
      cases rest1 with
      | nil =>
        simp only [whereLoopGo] at h
        exact Except.noConfusion h
      | cons y rest2 =>
        cases rest2 with
        | nil =>
          simp only [whereLoopGo] at h
          exact Except.noConfusion h
        | cons z rest =>
          cases rest with
          | nil =>
            simp only [whereLoopGo] at h
            injection h with h2
            subst h2
            refine ⟨fun h0 => ?_, fun k hk => ?_⟩
            · rw [List.getD_cons_zero]
              exact kwOfLine_mkLine _ _ _ _ (updateOperator_no_space prev cur hcur)
            · simp only [List.length_cons, List.length_nil] at hk
              omega
          | cons conj rest' =>
            cases hrec : whereLoopGo rest' (some conj) (updateOperator prev cur) with
            | error e =>
              simp only [whereLoopGo, hrec] at h
              exact Except.noConfusion h
            | ok ls =>
              simp only [whereLoopGo, hrec] at h
              injection h with h2
              subst h2
              have hcur' : ∀ c ∈ updateOperator prev cur, ¬ c = ' ' :=
                updateOperator_no_space prev cur hcur
              have hlen : rest'.length ≤ n := by
                simp only [List.length_cons] at hn
                omega
              obtain ⟨ih1, ih2⟩ :=
                ih rest' hlen (some conj) (updateOperator prev cur) ls hrec hcur'
              refine ⟨fun h0 => ?_, fun k hk => ?_⟩
              · rw [List.getD_cons_zero]
                exact kwOfLine_mkLine _ _ _ _ hcur'
              · cases k with
                | zero =>
                  have h0 : 0 < ls.length := by
                    simp only [List.length_cons] at hk
                    omega
                  have e3 : (4 * 0 + 3 : Nat) = 0 + 1 + 1 + 1 := by norm_num
                  simp only [e3, List.getD_cons_succ, List.getD_cons_zero]
                  rw [ih1 h0, kwOfLine_mkLine _ _ _ _ hcur']
                  simp only [updateOperator]
                | succ j =>
                  have e4 : (4 * (j + 1) + 3 : Nat) = 4 * j + 3 + 1 + 1 + 1 + 1 := by
                    omega
                  have hk' : j + 1 < ls.length := by
                    simp only [List.length_cons] at hk
                    omega
                  simp only [e4, List.getD_cons_succ]
                  exact ih2 j hk'

/-- C4 counterexample: in
`select a from t where a = 1 and b = 2 xx c = 3` the token before the third
stride is `xx`, neither `and` nor `or`; the claim's rule predicts the default
`where`, but the emitted third condition line keeps the `andWhere` of the
previous stride. -/
theorem conjunction_fallback_counterexample :
    claimKeywordC4 cexConds 8 = kwWhere ∧
    whereLoopGo cexConds none kwWhere = Except.ok cexLines ∧
    kwOfLine (cexLines.getD 2 []) = kwAndWhere ∧
    kwAndWhere ≠ kwWhere :=
  ⟨by decide, rfl, by decide, by decide⟩

/-- C4 amended: on the success path of the WHERE loop the first condition
line uses `where`; each later line uses `andWhere` when the token before its
stride is `and`, `orWhere` when it is `or`, and otherwise repeats the keyword
of the PREVIOUS condition line (not necessarily the default `where`). -/
theorem condition_keyword_chain (conds lines : List (List Char))
    (h : whereLoopGo conds none kwWhere = Except.ok lines) :
    (0 < lines.length → kwOfLine (lines.getD 0 []) = kwWhere) ∧
    (∀ k, k + 1 < lines.length →
      kwOfLine (lines.getD (k + 1) []) =
        (if lower (conds.getD (4 * k + 3) []) = "and".data then kwAndWhere
         else if lower (conds.getD (4 * k + 3) []) = "or".data then kwOrWhere
         else kwOfLine (lines.getD k []))) :=
  whereLoopGo_kw conds.length conds (le_refl _) none kwWhere lines h
    (no_space_of_all kwWhere (by decide))

/-- C4 witness: the chain rule applied to the counterexample conditions at
the second line, whose preceding token is `and`. -/
theorem condition_keyword_chain_witness :
    whereLoopGo cexConds none kwWhere = Except.ok cexLines ∧
    kwOfLine (cexLines.getD 1 []) =
      (if lower (cexConds.getD 3 []) = "and".data then kwAndWhere
       else if lower (cexConds.getD 3 []) = "or".data then kwOrWhere
       else kwOfLine (cexLines.getD 0 [])) :=
  ⟨rfl, (condition_keyword_chain cexConds cexLines rfl).2 0 (by decide)⟩

/-- C10 witness: `select a from t where   ` (trailing blanks after `where`)
succeeds with just the two selector lines. -/
theorem where_no_tokens_success_witness :
    isPre ("select".data) (normalize ("select a from t where   ".data)) = true ∧
    containsSub ("from".data) (normalize ("select a from t where   ".data)) = true ∧
    containsSub ("where".data) (normalize ("select a from t where   ".data)) = true ∧
    conditionsOf (normalize ("select a from t where   ".data)) = [] ∧
    sql_to_knex_coffeescript "select a from t where   " =
      String.mk (renderOutput (tablePartOf (normalize ("select a from t where   ".data)))
        (selectPartOf (normalize ("select a from t where   ".data))) []) :=
  ⟨by decide, by decide, by decide, by decide,
   where_no_tokens_success "select a from t where   " (by decide) (by decide)
     (by decide) (by decide)⟩

end CoderAgent
